import Mathlib

/-!
Verification of the memory-tiering and prompt-cache subsystem of the
Zyra conversational agent repository.

The TypeScript source is shallowly embedded: the persistent Supabase
tables become lists of rows inside a `Store` structure, each database
query becomes a filter/sort/take over those lists (Postgres `order by`
is modelled by a stable insertion sort, so ties keep insertion order,
matching how the single-row queries of the source behave on the states
it actually produces), and every `async` method of `MemoryManager`,
`PromptManager` and the `updateSystemPrompt` edge function becomes a
total Lean function on `Store`.  Store failure and rebuild failure are
modelled by explicit boolean knobs where the claims need them, mirroring
the try/catch structure of the source.  JavaScript strings are modelled
as Lean `String`/`List Char` (the source only manipulates them at
whole-character granularity).
-/

namespace Zyra

/-! ### Character and string helpers

`wsCharB` models the characters matched by the JavaScript regex class
`\s` and removed by `String.prototype.trim`, restricted to the ASCII
range the repository manipulates. -/

def wsCharB (c : Char) : Bool :=
  c == ' ' || c == '\t' || c == '\n' || c == '\r' || c == '\x0b' || c == '\x0c'

/-- `startsWithL t p` is true when `p` is an initial segment of `t`. -/
def startsWithL : List Char → List Char → Bool
  | _, [] => true
  | [], _ :: _ => false
  | c :: cs, p :: ps => c == p && startsWithL cs ps

/-- `hasSubstrL t p` models JavaScript `t.includes(p)`: `p` occurs
contiguously somewhere in `t`. -/
def hasSubstrL : List Char → List Char → Bool
  | [], p => p.isEmpty
  | t@(_ :: ts), p => startsWithL t p || hasSubstrL ts p

/-- JavaScript `t.includes(p)` on strings. -/
def hasSubstr (t p : String) : Bool :=
  hasSubstrL t.toList p.toList

/-- JavaScript `toLowerCase`, on the ASCII text the source feeds it. -/
def lowerStr (s : String) : String :=
  String.mk (s.toList.map Char.toLower)

/-- One pass of JavaScript `replace(/\s+/g, ' ')`: every maximal run of
whitespace becomes a single space.  The boolean state records whether
the previous input character was part of a whitespace run whose
replacement space has already been emitted. -/
def collapseAux : Bool → List Char → List Char
  | _, [] => []
  | prevWs, c :: cs =>
    if wsCharB c then
      if prevWs then collapseAux true cs
      else ' ' :: collapseAux true cs
    else c :: collapseAux false cs

def collapseWs (l : List Char) : List Char :=
  collapseAux false l

/-- JavaScript `String.prototype.trim`: drop whitespace from both ends. -/
def trimWs (l : List Char) : List Char :=
  (((l.dropWhile wsCharB).reverse.dropWhile wsCharB)).reverse

/-! ### `memoryUtils.ts`: pure utility functions -/

/-- `sanitizeText` from `src/src/memory/memoryUtils.ts`:
`text.trim().replace(/\s+/g, ' ').substring(0, 2000)`.
`substring(0, 2000)` keeps the first 2000 characters. -/
def sanitizeText (s : String) : String :=
  String.mk ((collapseWs (trimWs s.toList)).take 2000)

/-- `validateVITPriority` from `src/src/memory/memoryUtils.ts`:
`Math.max(1, Math.min(5, Math.floor(priority)))`.  The claims quantify
over integer inputs, on which `Math.floor` is the identity. -/
def validateVITPriority (priority : Int) : Int :=
  max 1 (min 5 priority)

/-- Result type of `extractVITFromConversation`. -/
structure VITCandidate where
  content : String
  tags : List String
  priority : Int
deriving Repr, DecidableEq

def highPriorityKeywords : List String :=
  ["remember", "important", "never forget", "always", "preference",
   "favorite", "hate", "love", "birthday", "anniversary", "family",
   "work", "job", "address", "phone", "email", "password", "secret"]

def mediumPriorityKeywords : List String :=
  ["like", "dislike", "usually", "often", "sometimes", "hobby",
   "interest", "goal", "plan", "schedule", "meeting", "appointment"]

/-- `extractVITFromConversation` from `src/src/memory/memoryUtils.ts`.
Builds the lower-cased concatenation `userText + " " + agentText`,
tests the two fixed keyword sets by substring containment, returns
`none` when neither matches, and otherwise returns the literal turn
text with derived topic tags and priority 5 (high match) or 3. -/
def extractVITFromConversation (userText agentText : String) :
    Option VITCandidate :=
  let combinedText := lowerStr (userText ++ " " ++ agentText)
  let hasHighPriority := highPriorityKeywords.any fun keyword =>
    hasSubstr combinedText keyword
  let hasMediumPriority := mediumPriorityKeywords.any fun keyword =>
    hasSubstr combinedText keyword
  if !hasHighPriority && !hasMediumPriority then
    none
  else
    let tags : List String :=
      (if hasSubstr combinedText "work" || hasSubstr combinedText "job" then ["work"] else [])
      ++ (if hasSubstr combinedText "family" || hasSubstr combinedText "parent" then ["family"] else [])
      ++ (if hasSubstr combinedText "hobby" || hasSubstr combinedText "interest" then ["hobby"] else [])
      ++ (if hasSubstr combinedText "preference" || hasSubstr combinedText "like" then ["preference"] else [])
      ++ (if hasSubstr combinedText "schedule" || hasSubstr combinedText "time" then ["schedule"] else [])
      ++ (if hasSubstr combinedText "goal" || hasSubstr combinedText "plan" then ["goal"] else [])
    let tags := if tags.isEmpty then ["general"] else tags
    some { content := "User: " ++ userText ++ "\n" ++ "Agent: " ++ agentText
           tags := tags
           priority := if hasHighPriority then 5 else 3 }

/-! ### The persistent store

One structure holds the five Supabase tables.  `nextId` models the id
sequence of the database (rows are appended in insertion order, as a
Postgres table scan without `order by` returns them for this workload),
and `now` is the clock value used for rows created by an operation. -/

structure STMRow where
  id : Nat
  session_id : String
  user_text : String
  agent_text : String
  turn_number : Nat
  created_at : Nat
deriving Repr, DecidableEq

structure VITRow where
  id : Nat
  user_id : String
  content : String
  tags : List String
  priority : Int
  last_updated : Nat
deriving Repr, DecidableEq

structure SemanticRow where
  user_id : String
  key : String
  value : String
  updated_at : Nat
deriving Repr, DecidableEq

structure EpisodicRow where
  id : Nat
  session_id : String
  summary : String
  tags : List String
  importance : Int
  created_at : Nat
deriving Repr, DecidableEq

structure CacheRow where
  session_id : String
  prompt : String
  last_updated : Nat
deriving Repr, DecidableEq

structure Store where
  stm : List STMRow
  vit : List VITRow
  semantic : List SemanticRow
  episodic : List EpisodicRow
  cache : List CacheRow
  nextId : Nat
  now : Nat
deriving Repr, DecidableEq

def emptyStore : Store :=
  { stm := [], vit := [], semantic := [], episodic := [], cache := [],
    nextId := 0, now := 0 }

/-! ### Query building blocks

`insSort` is a stable insertion sort: `lt x y` means `x` is ordered
strictly before `y`, and ties keep their original (insertion) order.
It models Postgres `order by`; on ordering columns the source states
actually contain, single-row reads like `order(...).limit(1).single()`
are the head of this sort. -/

def insSortedInsert (lt : α → α → Bool) (a : α) : List α → List α
  | [] => [a]
  | b :: bs => if lt b a then b :: insSortedInsert lt a bs else a :: b :: bs

def insSort (lt : α → α → Bool) : List α → List α
  | [] => []
  | a :: as => insSortedInsert lt a (insSort lt as)

/-- The STM rows of one session, in table order. -/
def sessionRows (st : Store) (sid : String) : List STMRow :=
  st.stm.filter (fun r => r.session_id == sid)

/-- The row returned by
`order('turn_number', { ascending: true }).limit(1).single()`:
the first row carrying the minimal `turn_number` (leftmost on ties). -/
def minTurnRow : List STMRow → Option STMRow
  | [] => none
  | r :: rs =>
    match minTurnRow rs with
    | none => some r
    | some m => if m.turn_number < r.turn_number then some m else some r

/-- Upsert (insert-or-wholesale-replace keyed on `session_id`) into the
`system_prompt_cache` table.  The table schema is not part of the
repository; following the spec, the row carries a `last_updated`
timestamp set to the time of the write. -/
def upsertCacheList (rows : List CacheRow) (sid prompt : String) (now : Nat) :
    List CacheRow :=
  if rows.any (fun r => r.session_id == sid) then
    rows.map (fun r => if r.session_id == sid then
      { session_id := sid, prompt := prompt, last_updated := now } else r)
  else
    rows ++ [{ session_id := sid, prompt := prompt, last_updated := now }]

def lookupCache (st : Store) (sid : String) : Option CacheRow :=
  st.cache.find? (fun r => r.session_id == sid)

/-! ### The `updateSystemPrompt` edge function
(`src/supabase/functions/updateSystemPrompt/index.ts`) -/

/-- Ordering used for `vit_memory` queries:
`order('priority', desc).order('last_updated', desc)`. -/
def vitOrder (x y : VITRow) : Bool :=
  y.priority < x.priority || (x.priority == y.priority && y.last_updated < x.last_updated)

def stmQuery (st : Store) (sid : String) : List STMRow :=
  insSort (fun x y => x.turn_number < y.turn_number) (sessionRows st sid)

def vitQuery (st : Store) (userId : String) : List VITRow :=
  (insSort vitOrder (st.vit.filter (fun r => r.user_id == userId && 3 ≤ r.priority))).take 20

def semanticQuery (st : Store) (userId : String) : List SemanticRow :=
  (insSort (fun x y => y.updated_at < x.updated_at)
    (st.semantic.filter (fun r => r.user_id == userId))).take 50

def episodicQuery (st : Store) (sid : String) : List EpisodicRow :=
  (insSort (fun x y => y.importance < x.importance ||
      (x.importance == y.importance && y.created_at < x.created_at))
    (st.episodic.filter (fun r => r.session_id == sid))).take 5

def zyraPreamble : String :=
  "You are Zyra, an advanced AI assistant with persistent memory capabilities. You have access to comprehensive information about this user and your conversation history.\n\nCORE PERSONALITY:\n- You are warm, intelligent, and genuinely helpful\n- You remember and reference past conversations naturally\n- You adapt your communication style to the user\x27s preferences\n- You proactively use your memory to provide personalized assistance\n\nMEMORY CONTEXT:"

def closingInstructions : String :=
  "\n\nINSTRUCTIONS:\n- Use this memory context to provide personalized, relevant responses\n- Reference past conversations and user preferences naturally\n- Don\x27t explicitly mention that you\x27re using \"memory\" - just demonstrate it\n- Ask follow-up questions to build better understanding\n- Be proactive in remembering new important information\n- Maintain consistency with established facts about the user\n- Respond as if you truly know and understand this person\n\nRemember: Your goal is to feel like a knowledgeable friend who remembers everything important about the user."

def vitSection (vitEntries : List VITRow) : String :=
  if vitEntries.isEmpty then ""
  else "\n\nVERY IMPORTANT THINGS TO REMEMBER:" ++
    String.join (vitEntries.enum.map (fun p =>
      "\n" ++ toString (p.1 + 1) ++ ". [Priority " ++ toString p.2.priority ++ "] "
        ++ p.2.content ++
        (if p.2.tags.isEmpty then ""
         else " (Tags: " ++ String.intercalate ", " p.2.tags ++ ")")))

def semanticSection (semanticEntries : List SemanticRow) : String :=
  if semanticEntries.isEmpty then ""
  else "\n\nUSER FACTS & PREFERENCES:" ++
    String.join (semanticEntries.map (fun e => "\n- " ++ e.key ++ ": " ++ e.value))

def stmSection (stmEntries : List STMRow) : String :=
  if stmEntries.isEmpty then ""
  else "\n\nRECENT CONVERSATION HISTORY:" ++
    String.join (stmEntries.map (fun e =>
      "\nTurn " ++ toString e.turn_number ++ ":" ++ "\nUser: " ++ e.user_text
        ++ "\nYou: " ++ e.agent_text ++ "\n"))

def episodicSection (episodicEntries : List EpisodicRow) : String :=
  if episodicEntries.isEmpty then ""
  else "\n\nPAST CONVERSATION SUMMARIES:" ++
    String.join (episodicEntries.enum.map (fun p =>
      "\n" ++ toString (p.1 + 1) ++ ". [Importance " ++ toString p.2.importance ++ "] "
        ++ p.2.summary ++
        (if p.2.tags.isEmpty then ""
         else " (" ++ String.intercalate ", " p.2.tags ++ ")")))

/-- The prompt text assembled by the edge function from the results of
its four queries. -/
def assemblePrompt (vitEntries : List VITRow) (semanticEntries : List SemanticRow)
    (stmEntries : List STMRow) (episodicEntries : List EpisodicRow) : String :=
  zyraPreamble ++ vitSection vitEntries ++ semanticSection semanticEntries
    ++ stmSection stmEntries ++ episodicSection episodicEntries
    ++ closingInstructions

/-- The whole read-and-assemble phase of the edge function, which
derives the user id from the session id via `sessionId.split('_')[0]`
and reads the four memory tables (never the cache table). -/
def buildSystemPrompt (sessionId : String) (st : Store) : String :=
  let userId := (sessionId.splitOn "_").headD ""
  assemblePrompt (vitQuery st userId) (semanticQuery st userId)
    (stmQuery st sessionId) (episodicQuery st sessionId)

/-- The full edge function on the success path: assemble the prompt and
upsert it as the session cache row. -/
def rebuildStore (sid : String) (now : Nat) (st : Store) : Store :=
  { st with cache := upsertCacheList st.cache sid (buildSystemPrompt sid st) now }

/-! ### `MemoryManager` (`src/src/memory/memoryUtils.ts`, manager part) -/

/-- `MemoryManager.addToSTM` on the success path: count the live rows of
the session, evict the minimal-`turn_number` row when the count is at
least 10, insert the new row with `turn_number = count + 1`, then (via
`maybeTriggerPromptUpdate` with the just-refreshed in-memory count)
trigger the prompt rebuild when that count reaches 10. -/
def addToSTM (st : Store) (sid userText agentText : String) : Store :=
  let currentCount := (sessionRows st sid).length
  let turnCount := currentCount + 1
  let stmAfterEvict :=
    if 10 ≤ currentCount then
      match minTurnRow (sessionRows st sid) with
      | some oldest => st.stm.filter (fun r => r.id != oldest.id)
      | none => st.stm
    else st.stm
  let st2 : Store :=
    { st with
      stm := stmAfterEvict ++
        [{ id := st.nextId, session_id := sid, user_text := userText,
           agent_text := agentText, turn_number := turnCount, created_at := st.now }],
      nextId := st.nextId + 1 }
  { st2 with
    cache := if 10 ≤ turnCount then
        upsertCacheList st2.cache sid (buildSystemPrompt sid st2) st.now
      else st2.cache }

/-- `MemoryManager.addVIT` on the success path: insert the row with the
priority exactly as passed (no clamping occurs in the source), and when
`priority >= 4` look up sessions with `.eq('session_id', userId)`
ordered by `created_at` descending, limited to 5, firing a prompt
rebuild for each.  The second component records which session ids the
method fired rebuilds for. -/
def addVIT (st : Store) (userId content : String) (tags : List String)
    (priority : Int) : Store × List String :=
  let st1 : Store :=
    { st with
      vit := st.vit ++
        [{ id := st.nextId, user_id := userId, content := content,
           tags := tags, priority := priority, last_updated := st.now }],
      nextId := st.nextId + 1 }
  if 4 ≤ priority then
    let sessions :=
      ((insSort (fun x y => y.created_at < x.created_at)
          (st1.stm.filter (fun r => r.session_id == userId))).take 5).map
        (fun r => r.session_id)
    (sessions.foldl (fun s sid2 => rebuildStore sid2 s.now s) st1, sessions)
  else (st1, [])

def staleLimitMs : Nat := 3600000

/-- `MemoryManager.getCachedPrompt`.  `storeUp = false` models the
store being unreachable (every query rejects and the outer catch
returns the empty string); `rebuildOk = false` models a failing
`callUpdateSystemPrompt` invocation, whose error the source swallows.
The result is the returned text, the store afterwards, and how many
rebuild invocations were fired. -/
def getCachedPromptM (storeUp rebuildOk : Bool) (sid : String) (now : Nat)
    (st : Store) : String × Store × Nat :=
  if !storeUp then ("", st, 0)
  else
    match lookupCache st sid with
    | none => ("", st, 0)
    | some row =>
      if row.last_updated + staleLimitMs < now then
        let st1 := if rebuildOk then rebuildStore sid now st else st
        match lookupCache st1 sid with
        | none => (row.prompt, st1, 1)
        | some row1 => (row1.prompt, st1, 1)
      else (row.prompt, st, 0)

/-- `MemoryManager.getSTMEntries`: order by `turn_number` descending,
limited. -/
def getSTMEntriesM (st : Store) (sid : String) (limit : Nat) : List STMRow :=
  (insSort (fun x y => y.turn_number < x.turn_number) (sessionRows st sid)).take limit

/-- `MemoryManager.getVITEntries`: priority at least `minPriority`,
ordered by priority then recency, both descending. -/
def getVITEntriesM (st : Store) (userId : String) (minPriority : Int) : List VITRow :=
  insSort vitOrder (st.vit.filter (fun r => r.user_id == userId && minPriority ≤ r.priority))

/-! ### `memoryUtils.ts` prompt formatting helpers -/

def formatSTMForPrompt (entries : List STMRow) : String :=
  if entries.isEmpty then ""
  else "Recent Conversation History:\n" ++
    String.intercalate "\n\n"
      ((insSort (fun x y => x.turn_number < y.turn_number) entries).map (fun e =>
        "Turn " ++ toString e.turn_number ++ ":\nUser: " ++ e.user_text
          ++ "\nAssistant: " ++ e.agent_text))

def formatVITForPrompt (entries : List VITRow) : String :=
  if entries.isEmpty then ""
  else "Important Information to Remember:\n" ++
    String.intercalate "\n"
      ((insSort (fun x y => y.priority < x.priority) entries).map (fun e =>
        "[Priority " ++ toString e.priority ++ "] " ++ e.content
          ++ " (Tags: " ++ String.intercalate ", " e.tags ++ ")"))

/-! ### `PromptManager` (`src/unnamed/part_004`, second document) -/

def baseSystemPrompt : String :=
  "You are Zyra, an advanced AI assistant with persistent memory capabilities. You have access to:\n\n1. Short-term memory: Recent conversation history within this session\n2. Very Important Things (VIT): Critical information the user wants you to remember\n3. Semantic memory: Key-value facts about the user\n4. Episodic memory: Summaries of past conversations\n\nGuidelines:\n- Use your memory to provide personalized, contextual responses\n- Reference past conversations and user preferences when relevant\n- Ask clarifying questions to build better understanding\n- Be proactive in remembering important information\n- Maintain consistency with previously established facts about the user\n\nYour responses should feel natural and demonstrate that you truly know and understand the user."

structure LLMMessage where
  role : String
  content : String
deriving Repr, DecidableEq

structure FinalPromptResult where
  systemPrompt : String
  messages : List LLMMessage
deriving Repr, DecidableEq

/-- `PromptManager.buildMemoryContext`: last 5 STM turns and VIT entries
of priority at least 3; each fetch degrades to the empty list when the
store is unreachable (the source catches and returns `[]`). -/
def buildMemoryContextM (storeUp : Bool) (sessionId userId : String)
    (st : Store) : String :=
  let stmEntries := if storeUp then getSTMEntriesM st sessionId 5 else []
  let vitEntries := if storeUp then getVITEntriesM st userId 3 else []
  let contextParts :=
    (if !stmEntries.isEmpty then [formatSTMForPrompt stmEntries] else []) ++
    (if !vitEntries.isEmpty then [formatVITForPrompt vitEntries] else [])
  if !contextParts.isEmpty then
    "MEMORY CONTEXT:\n" ++ String.intercalate "\n\n" contextParts
  else ""

/-- `PromptManager.generateFinalPrompt`: serve the cached prompt when it
is non-empty, otherwise fall back to the base prompt, optionally
augmented with freshly built memory context when a user id is given.
Every failure path of the source is caught and lands on the base
prompt. -/
def generateFinalPromptM (storeUp rebuildOk : Bool) (sessionId : String)
    (userId : Option String) (userInput : String) (now : Nat) (st : Store) :
    FinalPromptResult × Store :=
  let r := getCachedPromptM storeUp rebuildOk sessionId now st
  let cachedPrompt := r.1
  let st1 := r.2.1
  let systemPrompt :=
    if cachedPrompt != "" then cachedPrompt
    else
      match userId with
      | some uid =>
        let memoryContext := buildMemoryContextM storeUp sessionId uid st1
        if memoryContext != "" then baseSystemPrompt ++ "\n\n" ++ memoryContext
        else baseSystemPrompt
      | none => baseSystemPrompt
  ({ systemPrompt := systemPrompt,
     messages := [{ role := "user", content := userInput }] }, st1)

/-- The memory-relevant pipeline of `AgentClient.chat`
(`src/unnamed/part_004`, first document): sanitize the user input,
generate the prompt, store the turn in STM, then auto-extract a VIT
entry from the sanitized input and the response. -/
def chatTurn (storeUp rebuildOk : Bool) (sessionId userId userInput responseText : String)
    (now : Nat) (st : Store) : Store :=
  let cleanUserInput := sanitizeText userInput
  let st1 := (generateFinalPromptM storeUp rebuildOk sessionId (some userId)
    cleanUserInput now st).2
  let st2 := addToSTM st1 sessionId cleanUserInput responseText
  match extractVITFromConversation cleanUserInput responseText with
  | some v => (addVIT st2 userId v.content v.tags v.priority).1
  | none => st2

/-! ### Interleaving model for concurrent cache rebuilds

A rebuild call is split into its two store interactions: the read phase
(the four table queries plus prompt assembly, which touch no state) and
the single upsert write.  Two calls for the same session run
concurrently; a schedule is the list of which call performs its next
store interaction.  Nothing in the source serializes the two calls. -/

structure ProcState where
  pc : Nat
  text : String
deriving Repr, DecidableEq

structure RebuildRace where
  store : Store
  a : ProcState
  b : ProcState
  writes : Nat
deriving Repr, DecidableEq

/-- One store interaction of a rebuild call: at `pc = 0` fetch the four
tables and assemble the prompt text; at `pc = 1` perform the cache
upsert.  A finished call (`pc = 2`) does nothing. -/
def procStep (sid : String) (now : Nat) (st : Store) (p : ProcState) (w : Nat) :
    Store × ProcState × Nat :=
  match p.pc with
  | 0 => (st, { pc := 1, text := buildSystemPrompt sid st }, w)
  | 1 => ({ st with cache := upsertCacheList st.cache sid p.text now },
          { pc := 2, text := p.text }, w + 1)
  | _ => (st, p, w)

def raceStep (sid : String) (now : Nat) (s : RebuildRace) (choice : Bool) :
    RebuildRace :=
  if choice then
    let r := procStep sid now s.store s.a s.writes
    { store := r.1, a := r.2.1, b := s.b, writes := r.2.2 }
  else
    let r := procStep sid now s.store s.b s.writes
    { store := r.1, a := s.a, b := r.2.1, writes := r.2.2 }

def raceInit (st : Store) : RebuildRace :=
  { store := st, a := { pc := 0, text := "" }, b := { pc := 0, text := "" },
    writes := 0 }

def raceRun (sid : String) (now : Nat) (sched : List Bool) (st : Store) :
    RebuildRace :=
  sched.foldl (raceStep sid now) (raceInit st)

/-! ### Cache upsert lemmas -/

theorem find?_map_replace (rows : List CacheRow) (sid p : String) (n : Nat) :
    (rows.map (fun r => if r.session_id == sid then
        ({ session_id := sid, prompt := p, last_updated := n } : CacheRow) else r)).find?
        (fun r => r.session_id == sid) =
      if rows.any (fun r => r.session_id == sid) then
        some { session_id := sid, prompt := p, last_updated := n } else none := by
  induction rows with
  | nil => rfl
  | cons a as ih =>
    rw [List.map_cons, List.any_cons]
    cases h : a.session_id == sid with
    | true =>
      rw [if_pos rfl, List.find?_cons]
      simp
    | false =>
      rw [if_neg (by simp), List.find?_cons]
      simp only [h]
      rw [ih]
      simp

theorem find?_upsertCacheList (rows : List CacheRow) (sid p : String) (n : Nat) :
    (upsertCacheList rows sid p n).find? (fun r => r.session_id == sid) =
      some { session_id := sid, prompt := p, last_updated := n } := by
  unfold upsertCacheList
  by_cases h : (rows.any fun r => r.session_id == sid) = true
  · rw [if_pos h, find?_map_replace, if_pos h]
  · rw [if_neg h]
    have hnone : rows.find? (fun r => r.session_id == sid) = none := by
      rw [List.find?_eq_none]
      intro x hx
      simp only [List.any_eq_true, not_exists] at h
      simp only [not_and] at h
      intro hcontra
      exact h x hx hcontra
    rw [List.find?_append, hnone, Option.none_or, List.find?_cons]
    simp

theorem lookupCache_rebuildStore (sid : String) (now : Nat) (st : Store) :
    lookupCache (rebuildStore sid now st) sid =
      some { session_id := sid, prompt := buildSystemPrompt sid st,
             last_updated := now } := by
  unfold lookupCache rebuildStore
  exact find?_upsertCacheList st.cache sid (buildSystemPrompt sid st) now

/-- A rebuild touches only the cache table, so the text a rebuild would
assemble is unchanged by a previous rebuild. -/
theorem buildSystemPrompt_rebuildStore (sid sid2 : String) (n : Nat) (st : Store) :
    buildSystemPrompt sid (rebuildStore sid2 n st) = buildSystemPrompt sid st := rfl

/-- C8: for every session and fixed store contents, running the
prompt-cache rebuild twice in immediate succession with no intervening
mutations of any memory table produces byte-identical prompt text on
both runs; after the second run the cache row holds that same text and
only its `last_updated` timestamp reflects the second run. -/
theorem rebuild_twice_same_text : ∀ (sid : String) (now1 now2 : Nat) (st : Store),
    buildSystemPrompt sid (rebuildStore sid now1 st) = buildSystemPrompt sid st ∧
    (lookupCache (rebuildStore sid now1 st) sid).map (fun r => r.prompt) =
      some (buildSystemPrompt sid st) ∧
    (lookupCache (rebuildStore sid now2 (rebuildStore sid now1 st)) sid).map
        (fun r => r.prompt) = some (buildSystemPrompt sid st) ∧
    (lookupCache (rebuildStore sid now2 (rebuildStore sid now1 st)) sid).map
        (fun r => r.last_updated) = some now2 := by
  intro sid now1 now2 st
  refine ⟨rfl, ?_, ?_, ?_⟩
  · rw [lookupCache_rebuildStore]
    rfl
  · rw [lookupCache_rebuildStore]
    rfl
  · rw [lookupCache_rebuildStore]
    rfl

/-- C3: `validateVITPriority` does clamp any integer into `{1,...,5}`
(7 goes to 5 and 0 goes to 1), but no insert path of the repository
calls it: `MemoryManager.addVIT` stores the input priority unchanged,
so an insert with priority 7 stores 7. -/
theorem vit_priority_clamp_vs_insert :
    (∀ p : Int, 1 ≤ validateVITPriority p ∧ validateVITPriority p ≤ 5) ∧
    validateVITPriority 7 = 5 ∧ validateVITPriority 0 = 1 ∧
    ((addVIT emptyStore "u1" "remember this" ["general"] 7).1.vit.map
      (fun r => r.priority)) = [7] := by
  refine ⟨fun p => ⟨le_max_left _ _, max_le (by norm_num) (min_le_left _ _)⟩,
    by decide, by decide, by decide⟩

/-- The store used for C5: user `user_42` has two recent sessions whose
ids were produced in the `userId_timestamp_random` format of
`generateSessionId`. -/
def c5Store : Store :=
  { stm := [{ id := 0, session_id := "user_42_1700000000000_abc123",
              user_text := "hello", agent_text := "hi", turn_number := 1,
              created_at := 1000 },
            { id := 1, session_id := "user_42_1700000500000_def456",
              user_text := "hey", agent_text := "yo", turn_number := 1,
              created_at := 2000 }],
    vit := [], semantic := [], episodic := [], cache := [], nextId := 2,
    now := 3000 }

/-- C5: a priority-5 Importance insert for `user_42` fires prompt
rebuilds for no session at all, although `user_42` has two recent
sessions: the lookup filters `short_term_memory` with
`session_id = userId` exactly, which never matches ids generated in the
`userId_timestamp_random` format, so the session list is empty and the
cache stays untouched. -/
theorem addVIT_high_priority_fanout_is_empty :
    (addVIT c5Store "user_42" "my password is hunter2" ["general"] 5).2 = [] ∧
    (addVIT c5Store "user_42" "my password is hunter2" ["general"] 5).1.cache = [] ∧
    c5Store.stm.map (fun r => r.session_id) =
      ["user_42_1700000000000_abc123", "user_42_1700000500000_def456"] := by
  refine ⟨by decide, by decide, by decide⟩

/-- C7: the importance classifier is a pure function of the two texts
(it is a total Lean function of them by construction); it returns
nothing exactly when neither fixed keyword set matches the lower-cased
concatenation `userText + " " + agentText`; any high-priority match
gives priority 5 and otherwise a match gives priority 3; and the input
"my password is x" is classified with priority 5. -/
theorem extractVIT_keyword_classification :
    ∀ u a : String,
      (extractVITFromConversation u a = none ↔
        highPriorityKeywords.any (fun k => hasSubstr (lowerStr (u ++ " " ++ a)) k) = false ∧
        mediumPriorityKeywords.any (fun k => hasSubstr (lowerStr (u ++ " " ++ a)) k) = false) ∧
      (∀ v, extractVITFromConversation u a = some v →
        v.priority = if highPriorityKeywords.any
            (fun k => hasSubstr (lowerStr (u ++ " " ++ a)) k) then 5 else 3) ∧
      (extractVITFromConversation "my password is x" "").map (fun v => v.priority) =
        some 5 := by
  intro u a
  refine ⟨?_, ?_, by decide⟩
  · by_cases h1 : highPriorityKeywords.any (fun k => hasSubstr (lowerStr (u ++ " " ++ a)) k)
    · simp [extractVITFromConversation, h1]
    · by_cases h2 : mediumPriorityKeywords.any (fun k => hasSubstr (lowerStr (u ++ " " ++ a)) k)
      · simp [extractVITFromConversation, h1, h2]
      · simp [extractVITFromConversation, h1, h2]
  · intro v hv
    by_cases h1 : highPriorityKeywords.any (fun k => hasSubstr (lowerStr (u ++ " " ++ a)) k)
    · simp only [extractVITFromConversation, h1] at hv
      simp only [h1, if_true]
      by_cases h2 : mediumPriorityKeywords.any (fun k => hasSubstr (lowerStr (u ++ " " ++ a)) k) <;>
        simp [h2] at hv <;> cases hv <;> rfl
    · by_cases h2 : mediumPriorityKeywords.any (fun k => hasSubstr (lowerStr (u ++ " " ++ a)) k)
      · simp only [extractVITFromConversation, h1, h2] at hv
        simp only [h1, if_false]
        simp at hv
        cases hv
        rfl
      · simp [extractVITFromConversation, h1, h2] at hv

theorem extractVIT_keyword_classification_witness :
    (⟨"User: i like tea\nAgent: ok", ["preference"], 3⟩ : VITCandidate).priority =
      if highPriorityKeywords.any
          (fun k => hasSubstr (lowerStr ("i like tea" ++ " " ++ "ok")) k) then 5 else 3 :=
  (extractVIT_keyword_classification "i like tea" "ok").2.1 _ (by decide)

/-! ### STM lemmas -/

theorem minTurnRow_eq_none_iff (l : List STMRow) : minTurnRow l = none ↔ l = [] := by
  induction l with
  | nil => simp [minTurnRow]
  | cons a as ih =>
    simp only [minTurnRow]
    cases hm : minTurnRow as with
    | none => simp
    | some m =>
      by_cases hlt : m.turn_number < a.turn_number <;> simp [hlt]

theorem minTurnRow_mem {l : List STMRow} {r : STMRow}
    (h : minTurnRow l = some r) : r ∈ l := by
  induction l with
  | nil => cases h
  | cons a as ih =>
    simp only [minTurnRow] at h
    cases hm : minTurnRow as with
    | none =>
      simp only [hm] at h
      cases h
      exact List.mem_cons_self _ _
    | some m =>
      simp only [hm] at h
      by_cases hlt : m.turn_number < a.turn_number
      · rw [if_pos hlt] at h
        cases h
        exact List.mem_cons_of_mem _ (ih hm)
      · rw [if_neg hlt] at h
        cases h
        exact List.mem_cons_self _ _

theorem minTurnRow_le {l : List STMRow} {r : STMRow}
    (h : minTurnRow l = some r) : ∀ x ∈ l, r.turn_number ≤ x.turn_number := by
  induction l generalizing r with
  | nil => cases h
  | cons a as ih =>
    simp only [minTurnRow] at h
    cases hm : minTurnRow as with
    | none =>
      simp only [hm] at h
      cases h
      have : as = [] := (minTurnRow_eq_none_iff as).mp hm
      subst this
      intro x hx
      rcases List.mem_singleton.mp hx with rfl
      exact le_refl _
    | some m =>
      simp only [hm] at h
      by_cases hlt : m.turn_number < a.turn_number
      · rw [if_pos hlt] at h
        cases h
        intro x hx
        rcases List.mem_cons.mp hx with rfl | hx'
        · exact le_of_lt hlt
        · exact ih hm x hx'
      · rw [if_neg hlt] at h
        cases h
        intro x hx
        rcases List.mem_cons.mp hx with rfl | hx'
        · exact le_refl _
        · exact le_trans (not_lt.mp hlt) (ih hm x hx')

/-- Unfolding of the STM table after `addToSTM`. -/
theorem addToSTM_stm (st : Store) (sid u a : String) :
    (addToSTM st sid u a).stm =
      (if 10 ≤ (sessionRows st sid).length then
        match minTurnRow (sessionRows st sid) with
        | some oldest => st.stm.filter (fun r => r.id != oldest.id)
        | none => st.stm
      else st.stm) ++
      [{ id := st.nextId, session_id := sid, user_text := u, agent_text := a,
         turn_number := (sessionRows st sid).length + 1, created_at := st.now }] := rfl

theorem addToSTM_nextId (st : Store) (sid u a : String) :
    (addToSTM st sid u a).nextId = st.nextId + 1 := rfl

/-- Well-formedness of the id column maintained by the model: ids are
pairwise distinct and below the id sequence value. -/
def IdsOk (st : Store) : Prop :=
  (st.stm.map (fun r => r.id)).Nodup ∧ ∀ r ∈ st.stm, r.id < st.nextId

instance (st : Store) : Decidable (IdsOk st) := by
  unfold IdsOk
  infer_instance

theorem filter_sess_filter_ne (l : List STMRow) (sid : String) (i : Nat) :
    (l.filter (fun r => r.id != i)).filter (fun r => r.session_id == sid) =
      (l.filter (fun r => r.session_id == sid)).filter (fun r => r.id != i) := by
  rw [List.filter_filter, List.filter_filter]
  congr 1
  funext r
  exact Bool.and_comm _ _

theorem length_filter_ne_id : ∀ (l : List STMRow) (v : STMRow),
    (l.map (fun r => r.id)).Nodup → v ∈ l →
    (l.filter (fun r => r.id != v.id)).length + 1 = l.length := by
  intro l
  induction l with
  | nil => intro v _ hv; cases hv
  | cons a as ih =>
    intro v hnd hv
    rw [List.map_cons, List.nodup_cons] at hnd
    obtain ⟨ha, hnd'⟩ := hnd
    rcases List.mem_cons.mp hv with rfl | hv'
    · rw [List.filter_cons, if_neg (by simp)]
      have hall : as.filter (fun r => r.id != v.id) = as := by
        rw [List.filter_eq_self]
        intro x hx
        have hne : x.id ≠ v.id := by
          intro he
          exact ha (he ▸ List.mem_map_of_mem (fun r => r.id) hx)
        simp [hne]
      rw [hall, List.length_cons]
    · have haid : a.id ≠ v.id := by
        intro he
        exact ha (he ▸ List.mem_map_of_mem (fun r => r.id) hv')
      rw [List.filter_cons, if_pos (by simp [haid])]
      rw [List.length_cons, List.length_cons, ← ih v hnd' hv']

/-- The session view of the STM table after an append: possibly-evicted
old rows followed by the new row. -/
theorem sessionRows_addToSTM_same (st : Store) (sid u a : String) :
    sessionRows (addToSTM st sid u a) sid =
      (if 10 ≤ (sessionRows st sid).length then
        match minTurnRow (sessionRows st sid) with
        | some oldest => (sessionRows st sid).filter (fun r => r.id != oldest.id)
        | none => sessionRows st sid
      else sessionRows st sid) ++
      [{ id := st.nextId, session_id := sid, user_text := u, agent_text := a,
         turn_number := (sessionRows st sid).length + 1, created_at := st.now }] := by
  show ((addToSTM st sid u a).stm.filter (fun r => r.session_id == sid)) = _
  rw [addToSTM_stm, List.filter_append]
  congr 1
  · by_cases h10 : 10 ≤ (sessionRows st sid).length
    · rw [if_pos h10, if_pos h10]
      cases hm : minTurnRow (sessionRows st sid) with
      | none => rfl
      | some oldest => exact filter_sess_filter_ne st.stm sid oldest.id
    · rw [if_neg h10, if_neg h10]
      rfl
  · simp [List.filter_cons]

/-- The session view of the STM table for a different session is a
sub-list of what it was (other sessions are never grown by an append). -/
theorem sessionRows_addToSTM_other (st : Store) (sid u a sid2 : String)
    (hne : (sid == sid2) = false) :
    (sessionRows (addToSTM st sid u a) sid2).Sublist (sessionRows st sid2) := by
  show ((addToSTM st sid u a).stm.filter (fun r => r.session_id == sid2)).Sublist _
  rw [addToSTM_stm, List.filter_append]
  have hnew : (List.filter (fun r => r.session_id == sid2)
      [{ id := st.nextId, session_id := sid, user_text := u, agent_text := a,
         turn_number := (sessionRows st sid).length + 1, created_at := st.now }]) =
      ([] : List STMRow) := by
    simp [List.filter_cons, hne]
  rw [hnew, List.append_nil]
  by_cases h10 : 10 ≤ (sessionRows st sid).length
  · rw [if_pos h10]
    cases hm : minTurnRow (sessionRows st sid) with
    | none => exact List.Sublist.refl _
    | some oldest =>
      rw [filter_sess_filter_ne]
      exact List.filter_sublist _
  · rw [if_neg h10]
    exact List.Sublist.refl _

theorem nodup_ids_sessionRows {st : Store} (h : IdsOk st) (sid : String) :
    ((sessionRows st sid).map (fun r => r.id)).Nodup :=
  ((List.filter_sublist st.stm).map (fun r => r.id)).nodup h.1

/-- The new per-session length after an append:
`min (oldLength + 1) 10` as long as the table was within bounds. -/
theorem length_sessionRows_addToSTM_same (st : Store) (sid u a : String)
    (hid : IdsOk st) (hb : (sessionRows st sid).length ≤ 10) :
    (sessionRows (addToSTM st sid u a) sid).length =
      min ((sessionRows st sid).length + 1) 10 := by
  rw [sessionRows_addToSTM_same, List.length_append]
  by_cases h10 : 10 ≤ (sessionRows st sid).length
  · rw [if_pos h10]
    have hlen : (sessionRows st sid).length = 10 := le_antisymm hb h10
    cases hm : minTurnRow (sessionRows st sid) with
    | none =>
      have : sessionRows st sid = [] := (minTurnRow_eq_none_iff _).mp hm
      rw [this] at hlen
      cases hlen
    | some oldest =>
      have hmem := minTurnRow_mem hm
      have := length_filter_ne_id (sessionRows st sid) oldest
        (nodup_ids_sessionRows hid sid) hmem
      simp only [List.length_cons, List.length_nil]
      omega
  · rw [if_neg h10]
    simp only [List.length_cons, List.length_nil]
    omega

theorem idsOk_addToSTM {st : Store} (h : IdsOk st) (sid u a : String) :
    IdsOk (addToSTM st sid u a) := by
  obtain ⟨hnd, hlt⟩ := h
  have hsub : (if 10 ≤ (sessionRows st sid).length then
      match minTurnRow (sessionRows st sid) with
      | some oldest => st.stm.filter (fun r => r.id != oldest.id)
      | none => st.stm
    else st.stm).Sublist st.stm := by
    by_cases h10 : 10 ≤ (sessionRows st sid).length
    · rw [if_pos h10]
      cases minTurnRow (sessionRows st sid) with
      | none => exact List.Sublist.refl _
      | some oldest => exact List.filter_sublist _
    · rw [if_neg h10]
  constructor
  · rw [addToSTM_stm, List.map_append, List.map_cons, List.map_nil]
    rw [List.nodup_append]
    refine ⟨(hsub.map (fun r => r.id)).nodup hnd, List.nodup_singleton _, ?_⟩
    intro x hx
    have hx' : x ∈ st.stm.map (fun r => r.id) := (hsub.map (fun r => r.id)).mem hx
    obtain ⟨r, hr, rfl⟩ := List.mem_map.mp hx'
    have := hlt r hr
    simp only [List.mem_singleton]
    omega
  · rw [addToSTM_stm, addToSTM_nextId]
    intro r hr
    rcases List.mem_append.mp hr with hr' | hr'
    · have := hlt r (hsub.mem hr')
      omega
    · rcases List.mem_singleton.mp hr' with rfl
      simp

theorem bounded_addToSTM {st : Store} (hid : IdsOk st)
    (hb : ∀ s, (sessionRows st s).length ≤ 10) (sid u a : String) :
    ∀ s, (sessionRows (addToSTM st sid u a) s).length ≤ 10 := by
  intro s
  by_cases hs : (sid == s) = true
  · have : sid = s := by
      have := hs
      simp only [beq_iff_eq] at this
      exact this
    subst this
    rw [length_sessionRows_addToSTM_same st sid u a hid (hb sid)]
    omega
  · have := (sessionRows_addToSTM_other st sid u a s
      (by simpa using hs)).length_le
    exact le_trans this (hb s)

def runAppends (ops : List (String × String × String)) : Store :=
  ops.foldl (fun st o => addToSTM st o.1 o.2.1 o.2.2) emptyStore

theorem idsOk_bounded_foldl : ∀ (ops : List (String × String × String)) (st : Store),
    IdsOk st → (∀ s, (sessionRows st s).length ≤ 10) →
    IdsOk (ops.foldl (fun st o => addToSTM st o.1 o.2.1 o.2.2) st) ∧
    ∀ s, (sessionRows (ops.foldl (fun st o => addToSTM st o.1 o.2.1 o.2.2) st) s).length ≤ 10 := by
  intro ops
  induction ops with
  | nil => intro st h1 h2; exact ⟨h1, h2⟩
  | cons o os ih =>
    intro st h1 h2
    exact ih _ (idsOk_addToSTM h1 o.1 o.2.1 o.2.2) (bounded_addToSTM h1 h2 o.1 o.2.1 o.2.2)

theorem idsOk_emptyStore : IdsOk emptyStore := by
  constructor
  · exact List.nodup_nil
  · intro r hr; cases hr

/-- C1: starting from an empty store, any sequence of STM appends (for
any mix of sessions) leaves every session with at most 10 live entries;
and whenever a session holds exactly 10 entries, the next append for it
removes precisely one row — one holding the minimal `turn_number` of the
session — before inserting the new row (which gets `turn_number` 11). -/
theorem stm_capacity_and_oldest_eviction :
    (∀ (ops : List (String × String × String)) (sid : String),
      (sessionRows (runAppends ops) sid).length ≤ 10) ∧
    (∀ (st : Store) (sid u a : String), IdsOk st →
      (sessionRows st sid).length = 10 →
      ∃ victim, victim ∈ sessionRows st sid ∧
        (∀ r ∈ sessionRows st sid, victim.turn_number ≤ r.turn_number) ∧
        ((sessionRows st sid).filter (fun r => r.id != victim.id)).length = 9 ∧
        sessionRows (addToSTM st sid u a) sid =
          (sessionRows st sid).filter (fun r => r.id != victim.id) ++
            [{ id := st.nextId, session_id := sid, user_text := u,
               agent_text := a, turn_number := 11, created_at := st.now }]) := by
  constructor
  · intro ops sid
    exact (idsOk_bounded_foldl ops emptyStore idsOk_emptyStore
      (fun s => Nat.zero_le 10)).2 sid
  · intro st sid u a hid hlen
    cases hm : minTurnRow (sessionRows st sid) with
    | none =>
      have : sessionRows st sid = [] := (minTurnRow_eq_none_iff _).mp hm
      rw [this] at hlen
      cases hlen
    | some victim =>
      have h10 : 10 ≤ (sessionRows st sid).length := le_of_eq hlen.symm
      refine ⟨victim, minTurnRow_mem hm, minTurnRow_le hm, ?_, ?_⟩
      · have := length_filter_ne_id (sessionRows st sid) victim
          (nodup_ids_sessionRows hid sid) (minTurnRow_mem hm)
        omega
      · rw [sessionRows_addToSTM_same, if_pos h10]
        simp only [hm, hlen]

/-- The store used as the C1 witness: one session `s1` already holding
10 rows with turn numbers 1 through 10. -/
def c1Store : Store :=
  { stm := (List.range 10).map (fun i =>
      { id := i, session_id := "s1", user_text := "u", agent_text := "a",
        turn_number := i + 1, created_at := i }),
    vit := [], semantic := [], episodic := [], cache := [], nextId := 10,
    now := 99 }

theorem stm_capacity_and_oldest_eviction_witness :
    (sessionRows (runAppends (List.replicate 12 ("s1", "u", "a"))) "s1").length ≤ 10 ∧
    ∃ victim, victim ∈ sessionRows c1Store "s1" ∧
      (∀ r ∈ sessionRows c1Store "s1", victim.turn_number ≤ r.turn_number) ∧
      ((sessionRows c1Store "s1").filter (fun r => r.id != victim.id)).length = 9 ∧
      sessionRows (addToSTM c1Store "s1" "hi" "yo") "s1" =
        (sessionRows c1Store "s1").filter (fun r => r.id != victim.id) ++
          [{ id := c1Store.nextId, session_id := "s1", user_text := "hi",
             agent_text := "yo", turn_number := 11, created_at := c1Store.now }] :=
  ⟨stm_capacity_and_oldest_eviction.1 (List.replicate 12 ("s1", "u", "a")) "s1",
   stm_capacity_and_oldest_eviction.2 c1Store "s1" "hi" "yo" (by decide) (by decide)⟩

/-- The single-session append sequence used by C2: `n` successive
appends to session `s1` starting from the empty store. -/
def appN : Nat → Store
  | 0 => emptyStore
  | n + 1 => addToSTM (appN n) "s1" "u" "a"

/-- C2 counterexample: after the 11th append has evicted turn 1 and
stored turn 11, the 12th append stores `turn_number` 11 again (the live
count is back at 10, and the code derives the turn number from the live
count, not from the last assigned number), so the session ends up with
two rows numbered 11 instead of an 11 followed by a 12. -/
theorem addToSTM_reuses_turn_number :
    (appN 11).stm.map (fun r => r.turn_number) = [2, 3, 4, 5, 6, 7, 8, 9, 10, 11] ∧
    (appN 12).stm.map (fun r => r.turn_number) = [3, 4, 5, 6, 7, 8, 9, 10, 11, 11] := by
  constructor <;> decide

theorem idsOk_appN : ∀ n, IdsOk (appN n) := by
  intro n
  induction n with
  | zero => exact idsOk_emptyStore
  | succ n ih => exact idsOk_addToSTM ih "s1" "u" "a"

theorem length_sessionRows_appN : ∀ n, (sessionRows (appN n) "s1").length = min n 10 := by
  intro n
  induction n with
  | zero => rfl
  | succ n ih =>
    have hb : (sessionRows (appN n) "s1").length ≤ 10 := by omega
    show (sessionRows (addToSTM (appN n) "s1" "u" "a") "s1").length = _
    rw [length_sessionRows_addToSTM_same (appN n) "s1" "u" "a" (idsOk_appN n) hb, ih]
    omega

/-- C2 amended: each append stores `turn_number` equal to the live entry
count of the session plus one (and `addToSTM` returns no value, so no
turn number reaches the caller).  From an empty session the assigned
numbers are therefore 1, 2, ..., 10, 11, and then 11 forever: the n-th
append assigns `min n 11`, so turn numbers are reused once eviction
starts. -/
theorem addToSTM_turn_is_count_plus_one :
    (∀ (st : Store) (sid u a : String),
      ((addToSTM st sid u a).stm.map (fun r => r.turn_number)).getLast? =
        some ((sessionRows st sid).length + 1)) ∧
    (∀ n : Nat, ((appN (n + 1)).stm.map (fun r => r.turn_number)).getLast? =
      some (min (n + 1) 11)) := by
  have hlast : ∀ (st : Store) (sid u a : String),
      ((addToSTM st sid u a).stm.map (fun r => r.turn_number)).getLast? =
        some ((sessionRows st sid).length + 1) := by
    intro st sid u a
    rw [addToSTM_stm, List.map_append, List.map_cons, List.map_nil,
      List.getLast?_concat]
  refine ⟨hlast, ?_⟩
  intro n
  show ((addToSTM (appN n) "s1" "u" "a").stm.map (fun r => r.turn_number)).getLast? = _
  rw [hlast, length_sessionRows_appN n]
  congr 1
  omega

/-! ### Prompt reader theorems -/

/-- C4 counterexample: with no cache row present, `getCachedPrompt`
returns the empty string and fires no rebuild at all, instead of
building the prompt via the builder and returning the built text (which
for this store would be the non-empty fixed assembly). -/
theorem getCachedPrompt_miss_returns_empty_without_build :
    getCachedPromptM true true "s1" 0 emptyStore = ("", emptyStore, 0) ∧
    buildSystemPrompt "s1" emptyStore ≠ "" := by
  constructor
  · rfl
  · decide

theorem string_eq_empty_of_length_zero (s : String) (h : s.length = 0) : s = "" := by
  cases s with
  | mk data =>
    cases data with
    | nil => rfl
    | cons a as => simp [String.length] at h

theorem string_append_ne_empty (s t : String) (h : s ≠ "") : s ++ t ≠ "" := by
  intro hc
  apply h
  have hlen := congrArg String.length hc
  rw [String.length_append] at hlen
  have h0 : s.length = 0 := by
    have hz : ("" : String).length = 0 := rfl
    omega
  exact string_eq_empty_of_length_zero s h0

/-- C4 amended: `getCachedPrompt` returns the empty string (with no
rebuild) when no cache row exists; when the row is more than 60 minutes
old it fires one rebuild and returns the re-read row text — the newly
built prompt when the rebuild succeeded, the stale text when the rebuild
failed — and when the row is at most 60 minutes old it returns the
cached text unchanged with no rebuild. -/
theorem getCachedPrompt_cases :
    ∀ (rebuildOk : Bool) (sid : String) (now : Nat) (st : Store),
      (lookupCache st sid = none →
        getCachedPromptM true rebuildOk sid now st = ("", st, 0)) ∧
      (∀ row, lookupCache st sid = some row →
        row.last_updated + staleLimitMs < now →
        (rebuildOk = true →
          getCachedPromptM true rebuildOk sid now st =
            (buildSystemPrompt sid st, rebuildStore sid now st, 1)) ∧
        (rebuildOk = false →
          getCachedPromptM true rebuildOk sid now st = (row.prompt, st, 1))) ∧
      (∀ row, lookupCache st sid = some row →
        ¬ (row.last_updated + staleLimitMs < now) →
        getCachedPromptM true rebuildOk sid now st = (row.prompt, st, 0)) := by
  intro rebuildOk sid now st
  refine ⟨?_, ?_, ?_⟩
  · intro hnone
    unfold getCachedPromptM
    simp only [hnone, Bool.not_true]
    rfl
  · intro row hrow hstale
    constructor
    · intro hok
      subst hok
      unfold getCachedPromptM
      simp only [hrow, Bool.not_true]
      rw [if_neg (by simp), if_pos hstale]
      simp only [if_true, lookupCache_rebuildStore]
    · intro hko
      subst hko
      unfold getCachedPromptM
      simp only [hrow, Bool.not_true]
      rw [if_neg (by simp), if_pos hstale]
      simp only [Bool.false_eq_true, if_false, hrow]
  · intro row hrow hfresh
    unfold getCachedPromptM
    simp only [hrow, Bool.not_true]
    rw [if_neg (by simp), if_neg hfresh]

/-- The store used as the C4 witness: one stale cache row for `s1`. -/
def c4Store : Store :=
  { stm := [], vit := [], semantic := [], episodic := [],
    cache := [{ session_id := "s1", prompt := "OLD", last_updated := 0 }],
    nextId := 0, now := 0 }

theorem getCachedPrompt_cases_witness :
    getCachedPromptM true true "s1" 3600001 c4Store =
      (buildSystemPrompt "s1" c4Store, rebuildStore "s1" 3600001 c4Store, 1) :=
  ((getCachedPrompt_cases true "s1" 3600001 c4Store).2.1
    { session_id := "s1", prompt := "OLD", last_updated := 0 }
    (by decide) (by decide)).1 rfl

/-- C6: the per-turn prompt generation is total in this embedding (the
source wraps every failing path in try/catch) and always produces a
non-empty system prompt; when the store is unreachable it degrades to
exactly the fixed base prompt with no memory context. -/
theorem generateFinalPrompt_always_nonempty :
    ∀ (storeUp rebuildOk : Bool) (sid : String) (uid : Option String)
      (input : String) (now : Nat) (st : Store),
      (generateFinalPromptM storeUp rebuildOk sid uid input now st).1.systemPrompt ≠ "" ∧
      (storeUp = false →
        (generateFinalPromptM storeUp rebuildOk sid uid input now st).1.systemPrompt =
          baseSystemPrompt) := by
  have hbase : baseSystemPrompt ≠ "" := by decide
  intro storeUp rebuildOk sid uid input now st
  constructor
  · unfold generateFinalPromptM
    by_cases h : ((getCachedPromptM storeUp rebuildOk sid now st).1 != "") = true
    · simp only [h, if_true]
      exact bne_iff_ne.mp h
    · simp only [h]
      cases uid with
      | none => exact hbase
      | some u =>
        by_cases hctx : (buildMemoryContextM storeUp sid u
            (getCachedPromptM storeUp rebuildOk sid now st).2.1 != "") = true
        · simp only [hctx, if_true]
          exact string_append_ne_empty _ _ (string_append_ne_empty _ _ hbase)
        · simp only [hctx]
          exact hbase
  · intro hdown
    subst hdown
    cases uid with
    | none => rfl
    | some u => rfl

theorem generateFinalPrompt_always_nonempty_witness :
    (generateFinalPromptM false true "s1" (some "u1") "hello" 0 emptyStore).1.systemPrompt ≠ "" ∧
    (generateFinalPromptM false true "s1" (some "u1") "hello" 0 emptyStore).1.systemPrompt =
      baseSystemPrompt :=
  ⟨(generateFinalPrompt_always_nonempty false true "s1" (some "u1") "hello" 0 emptyStore).1,
   (generateFinalPrompt_always_nonempty false true "s1" (some "u1") "hello" 0 emptyStore).2 rfl⟩

/-! ### Concurrency theorems -/

/-- The prompt a rebuild assembles depends only on the four memory
tables, never on the cache table. -/
theorem buildSystemPrompt_congr (sid : String) (s1 s2 : Store)
    (h1 : s1.stm = s2.stm) (h2 : s1.vit = s2.vit)
    (h3 : s1.semantic = s2.semantic) (h4 : s1.episodic = s2.episodic) :
    buildSystemPrompt sid s1 = buildSystemPrompt sid s2 := by
  unfold buildSystemPrompt stmQuery vitQuery semanticQuery episodicQuery sessionRows
  rw [h1, h2, h3, h4]

/-- Invariant of two same-session rebuild calls racing: memory tables
never change, any fetched text equals the rebuild of the initial store,
the write counter counts finished calls, and once either call has
written, the cache row holds the rebuilt text. -/
def RaceInv (sid : String) (now : Nat) (st0 : Store) (s : RebuildRace) : Prop :=
  s.store.stm = st0.stm ∧ s.store.vit = st0.vit ∧
  s.store.semantic = st0.semantic ∧ s.store.episodic = st0.episodic ∧
  s.a.pc ≤ 2 ∧ s.b.pc ≤ 2 ∧
  (1 ≤ s.a.pc → s.a.text = buildSystemPrompt sid st0) ∧
  (1 ≤ s.b.pc → s.b.text = buildSystemPrompt sid st0) ∧
  s.writes = (if s.a.pc = 2 then 1 else 0) + (if s.b.pc = 2 then 1 else 0) ∧
  ((s.a.pc = 2 ∨ s.b.pc = 2) →
    lookupCache s.store sid =
      some { session_id := sid, prompt := buildSystemPrompt sid st0,
             last_updated := now })

theorem raceStep_preserves (sid : String) (now : Nat) (st0 : Store)
    (s : RebuildRace) (choice : Bool) (h : RaceInv sid now st0 s) :
    RaceInv sid now st0 (raceStep sid now s choice) := by
  obtain ⟨sstore, a, b, w⟩ := s
  obtain ⟨apc, atext⟩ := a
  obtain ⟨bpc, btext⟩ := b
  obtain ⟨h1, h2, h3, h4, ha2, hb2, hat, hbt, hw, hlook⟩ := h
  have ha2' : apc ≤ 2 := ha2
  have hb2' : bpc ≤ 2 := hb2
  have hat' : 1 ≤ apc → atext = buildSystemPrompt sid st0 := hat
  have hbt' : 1 ≤ bpc → btext = buildSystemPrompt sid st0 := hbt
  have hw' : w = (if apc = 2 then 1 else 0) + (if bpc = 2 then 1 else 0) := hw
  have hlook' : (apc = 2 ∨ bpc = 2) →
      lookupCache sstore sid =
        some { session_id := sid, prompt := buildSystemPrompt sid st0,
               last_updated := now } := hlook
  have hbuild : buildSystemPrompt sid sstore = buildSystemPrompt sid st0 :=
    buildSystemPrompt_congr sid _ _ h1 h2 h3 h4
  cases choice with
  | true =>
    cases apc with
    | zero =>
      show RaceInv sid now st0
        { store := sstore, a := { pc := 1, text := buildSystemPrompt sid sstore },
          b := { pc := bpc, text := btext }, writes := w }
      refine ⟨h1, h2, h3, h4, (show (1 : Nat) ≤ 2 by omega), hb2',
        fun _ => hbuild, hbt', ?_, ?_⟩
      · show w = (if (1 : Nat) = 2 then 1 else 0) + (if bpc = 2 then 1 else 0)
        simpa using hw'
      · show ((1 : Nat) = 2 ∨ bpc = 2) → _
        intro hor
        rcases hor with hc | hc
        · exact absurd hc (by omega)
        · exact hlook' (Or.inr hc)
    | succ apc1 =>
      cases apc1 with
      | zero =>
        have hatext : atext = buildSystemPrompt sid st0 := hat' (by omega)
        show RaceInv sid now st0
          { store := { sstore with cache := upsertCacheList sstore.cache sid atext now },
            a := { pc := 2, text := atext },
            b := { pc := bpc, text := btext }, writes := w + 1 }
        refine ⟨h1, h2, h3, h4, (show (2 : Nat) ≤ 2 by omega), hb2',
          fun _ => hatext, hbt', ?_, ?_⟩
        · show w + 1 = (if (2 : Nat) = 2 then 1 else 0) + (if bpc = 2 then 1 else 0)
          by_cases hbc : bpc = 2 <;> simp [hbc] at hw' ⊢ <;> omega
        · intro _
          show (upsertCacheList sstore.cache sid atext now).find? _ = _
          rw [find?_upsertCacheList, hatext]
      | succ apc2 =>
        cases apc2 with
        | zero =>
          show RaceInv sid now st0
            { store := sstore, a := { pc := 2, text := atext },
              b := { pc := bpc, text := btext }, writes := w }
          exact ⟨h1, h2, h3, h4, ha2', hb2', hat', hbt', hw', hlook'⟩
        | succ apc3 => exact absurd ha2' (by omega)
  | false =>
    cases bpc with
    | zero =>
      show RaceInv sid now st0
        { store := sstore, a := { pc := apc, text := atext },
          b := { pc := 1, text := buildSystemPrompt sid sstore }, writes := w }
      refine ⟨h1, h2, h3, h4, ha2', (show (1 : Nat) ≤ 2 by omega), hat',
        fun _ => hbuild, ?_, ?_⟩
      · show w = (if apc = 2 then 1 else 0) + (if (1 : Nat) = 2 then 1 else 0)
        simpa using hw'
      · show (apc = 2 ∨ (1 : Nat) = 2) → _
        intro hor
        rcases hor with hc | hc
        · exact hlook' (Or.inl hc)
        · exact absurd hc (by omega)
    | succ bpc1 =>
      cases bpc1 with
      | zero =>
        have hbtext : btext = buildSystemPrompt sid st0 := hbt' (by omega)
        show RaceInv sid now st0
          { store := { sstore with cache := upsertCacheList sstore.cache sid btext now },
            a := { pc := apc, text := atext },
            b := { pc := 2, text := btext }, writes := w + 1 }
        refine ⟨h1, h2, h3, h4, ha2', (show (2 : Nat) ≤ 2 by omega), hat',
          fun _ => hbtext, ?_, ?_⟩
        · show w + 1 = (if apc = 2 then 1 else 0) + (if (2 : Nat) = 2 then 1 else 0)
          by_cases hac : apc = 2 <;> simp [hac] at hw' ⊢ <;> omega
        · intro _
          show (upsertCacheList sstore.cache sid btext now).find? _ = _
          rw [find?_upsertCacheList, hbtext]
      | succ bpc2 =>
        cases bpc2 with
        | zero =>
          show RaceInv sid now st0
            { store := sstore, a := { pc := apc, text := atext },
              b := { pc := 2, text := btext }, writes := w }
          exact ⟨h1, h2, h3, h4, ha2', hb2', hat', hbt', hw', hlook'⟩
        | succ bpc3 => exact absurd hb2' (by omega)

theorem raceFoldl_preserves (sid : String) (now : Nat) (st0 : Store) :
    ∀ (sched : List Bool) (s : RebuildRace), RaceInv sid now st0 s →
      RaceInv sid now st0 (sched.foldl (raceStep sid now) s) := by
  intro sched
  induction sched with
  | nil => intro s h; exact h
  | cons c cs ih =>
    intro s h
    rw [List.foldl_cons]
    exact ih _ (raceStep_preserves sid now st0 s c h)

theorem raceInit_inv (sid : String) (now : Nat) (st0 : Store) :
    RaceInv sid now st0 (raceInit st0) := by
  refine ⟨rfl, rfl, rfl, rfl, (show (0 : Nat) ≤ 2 by omega),
    (show (0 : Nat) ≤ 2 by omega), ?_, ?_, rfl, ?_⟩
  · show (1 : Nat) ≤ 0 → _
    intro hc
    exact absurd hc (by omega)
  · show (1 : Nat) ≤ 0 → _
    intro hc
    exact absurd hc (by omega)
  · show ((0 : Nat) = 2 ∨ (0 : Nat) = 2) → _
    intro hor
    rcases hor with hc | hc <;> exact absurd hc (by omega)

/-- C9 counterexample: two simultaneous rebuild calls for the same
session both complete and both perform a cache write (two completed
rebuild writes), where the claim asserts exactly one completed write. -/
theorem concurrent_rebuild_double_write :
    (raceRun "s1" 5 [true, true, false, false] emptyStore).writes = 2 ∧
    (raceRun "s1" 5 [true, true, false, false] emptyStore).a.pc = 2 ∧
    (raceRun "s1" 5 [true, true, false, false] emptyStore).b.pc = 2 ∧
    ¬ (raceRun "s1" 5 [true, true, false, false] emptyStore).writes = 1 := by
  refine ⟨by decide, by decide, by decide, by decide⟩

/-- C9 amended: nothing serializes the two calls, so in every
interleaving in which both same-session rebuild calls complete, exactly
two cache writes occur — but each write is a wholesale upsert of the
same text (the memory tables do not change during the race), so the
final cache row is the one a single rebuild would have produced. -/
theorem concurrent_rebuild_two_writes_last_wins :
    ∀ (sched : List Bool) (sid : String) (now : Nat) (st : Store),
      (raceRun sid now sched st).a.pc = 2 →
      (raceRun sid now sched st).b.pc = 2 →
      (raceRun sid now sched st).writes = 2 ∧
      (lookupCache (raceRun sid now sched st).store sid).map (fun r => r.prompt) =
        some (buildSystemPrompt sid st) := by
  intro sched sid now st ha hb
  have hinv := raceFoldl_preserves sid now st sched (raceInit st)
    (raceInit_inv sid now st)
  obtain ⟨_, _, _, _, _, _, _, _, hw, hlook⟩ := hinv
  constructor
  · have hw2 : (raceRun sid now sched st).writes =
        (if (raceRun sid now sched st).a.pc = 2 then 1 else 0) +
        (if (raceRun sid now sched st).b.pc = 2 then 1 else 0) := hw
    rw [hw2, ha, hb]
    rfl
  · have hl2 : lookupCache (raceRun sid now sched st).store sid =
        some { session_id := sid, prompt := buildSystemPrompt sid st,
               last_updated := now } := hlook (Or.inl ha)
    rw [hl2]
    rfl

theorem concurrent_rebuild_two_writes_last_wins_witness :
    (raceRun "s1" 7 [true, false, true, false] emptyStore).writes = 2 ∧
    (lookupCache (raceRun "s1" 7 [true, false, true, false] emptyStore).store
      "s1").map (fun r => r.prompt) = some (buildSystemPrompt "s1" emptyStore) :=
  concurrent_rebuild_two_writes_last_wins [true, false, true, false] "s1" 7
    emptyStore (by decide) (by decide)

/-! ### Sanitize lemmas -/

theorem collapseAux_head_nonws : ∀ (l : List Char) (c : Char),
    (collapseAux true l).head? = some c → wsCharB c = false := by
  intro l
  induction l with
  | nil => intro c h; cases h
  | cons d ds ih =>
    intro c h
    by_cases hws : wsCharB d = true
    · rw [show collapseAux true (d :: ds) = collapseAux true ds by
        simp [collapseAux, hws]] at h
      exact ih c h
    · rw [show collapseAux true (d :: ds) = d :: collapseAux false ds by
        simp [collapseAux, hws]] at h
      rw [List.head?_cons] at h
      cases h
      exact Bool.not_eq_true _ ▸ hws

theorem collapseAux_chain : ∀ (l : List Char) (b : Bool),
    List.Chain' (fun c d => wsCharB c = false ∨ wsCharB d = false)
      (collapseAux b l) := by
  intro l
  induction l with
  | nil => intro b; exact List.chain'_nil
  | cons d ds ih =>
    intro b
    by_cases hws : wsCharB d = true
    · cases b with
      | true =>
        rw [show collapseAux true (d :: ds) = collapseAux true ds by
          simp [collapseAux, hws]]
        exact ih true
      | false =>
        rw [show collapseAux false (d :: ds) = ' ' :: collapseAux true ds by
          simp [collapseAux, hws]]
        rw [List.chain'_cons']
        refine ⟨?_, ih true⟩
        intro y hy
        exact Or.inr (collapseAux_head_nonws ds y hy)
    · rw [show collapseAux b (d :: ds) = d :: collapseAux false ds by
        simp [collapseAux, hws]]
      rw [List.chain'_cons']
      refine ⟨?_, ih false⟩
      intro y _
      exact Or.inl (Bool.not_eq_true _ ▸ hws)

theorem collapseAux_ws_is_space : ∀ (l : List Char) (b : Bool) (c : Char),
    c ∈ collapseAux b l → wsCharB c = true → c = ' ' := by
  intro l
  induction l with
  | nil => intro b c hc _; cases hc
  | cons d ds ih =>
    intro b c hc hcw
    by_cases hws : wsCharB d = true
    · cases b with
      | true =>
        rw [show collapseAux true (d :: ds) = collapseAux true ds by
          simp [collapseAux, hws]] at hc
        exact ih true c hc hcw
      | false =>
        rw [show collapseAux false (d :: ds) = ' ' :: collapseAux true ds by
          simp [collapseAux, hws]] at hc
        rcases List.mem_cons.mp hc with rfl | hc'
        · rfl
        · exact ih true c hc' hcw
    · rw [show collapseAux b (d :: ds) = d :: collapseAux false ds by
        simp [collapseAux, hws]] at hc
      rcases List.mem_cons.mp hc with rfl | hc'
      · exact absurd hcw (by simp [hws])
      · exact ih false c hc' hcw

theorem head?_dropWhile_nonws : ∀ (l : List Char) (c : Char),
    (l.dropWhile wsCharB).head? = some c → wsCharB c = false := by
  intro l
  induction l with
  | nil => intro c h; cases h
  | cons d ds ih =>
    intro c h
    by_cases hws : wsCharB d = true
    · rw [List.dropWhile_cons, if_pos hws] at h
      exact ih c h
    · rw [List.dropWhile_cons, if_neg hws, List.head?_cons] at h
      cases h
      exact Bool.not_eq_true _ ▸ hws

theorem head?_trimWs_nonws (l : List Char) (c : Char)
    (h : (trimWs l).head? = some c) : wsCharB c = false := by
  have hpre : trimWs l <+: l.dropWhile wsCharB := by
    have h1 : ((l.dropWhile wsCharB).reverse.dropWhile wsCharB) <:+
        (l.dropWhile wsCharB).reverse := List.dropWhile_suffix wsCharB
    have h2 := Iff.mpr List.reverse_prefix h1
    rw [List.reverse_reverse] at h2
    exact h2
  obtain ⟨r, hr⟩ := hpre
  have hhead : (l.dropWhile wsCharB).head? = some c := by
    rw [← hr]
    cases htl : trimWs l with
    | nil => rw [htl] at h; cases h
    | cons x xs =>
      rw [htl] at h
      rw [List.head?_cons] at h
      cases h
      rfl
  exact head?_dropWhile_nonws l c hhead

theorem collapseWs_head_nonws (l : List Char) (c : Char)
    (hl : ∀ d, l.head? = some d → wsCharB d = false)
    (h : (collapseWs l).head? = some c) : wsCharB c = false := by
  cases l with
  | nil => cases h
  | cons d ds =>
    have hd := hl d rfl
    unfold collapseWs at h
    rw [show collapseAux false (d :: ds) = d :: collapseAux false ds by
      simp [collapseAux, hd]] at h
    rw [List.head?_cons] at h
    cases h
    exact hd

theorem head?_take_eq (l : List Char) (n : Nat) (c : Char)
    (h : (l.take n).head? = some c) : l.head? = some c := by
  cases n with
  | zero => cases h
  | succ n =>
    cases l with
    | nil => cases h
    | cons a as =>
      rw [List.take_succ_cons, List.head?_cons] at h
      exact h

/-! ### STM-preservation of the cache-only operations -/

theorem stm_rebuildStore (sid : String) (now : Nat) (st : Store) :
    (rebuildStore sid now st).stm = st.stm := rfl

theorem stm_foldl_rebuild : ∀ (l : List String) (s : Store),
    (l.foldl (fun s2 sid2 => rebuildStore sid2 s2.now s2) s).stm = s.stm := by
  intro l
  induction l with
  | nil => intro s; rfl
  | cons x xs ih =>
    intro s
    rw [List.foldl_cons, ih]
    rfl

theorem stm_addVIT (st : Store) (uid content : String) (tags : List String)
    (priority : Int) : ((addVIT st uid content tags priority).1).stm = st.stm := by
  unfold addVIT
  by_cases h : (4 : Int) ≤ priority
  · rw [if_pos h]
    exact stm_foldl_rebuild _ _
  · rw [if_neg h]

theorem stm_getCachedPromptM (storeUp rebuildOk : Bool) (sid : String)
    (now : Nat) (st : Store) :
    ((getCachedPromptM storeUp rebuildOk sid now st).2.1).stm = st.stm := by
  unfold getCachedPromptM
  cases storeUp with
  | false => rfl
  | true =>
    cases hlk : lookupCache st sid with
    | none =>
      simp only [hlk, Bool.not_true]
      rfl
    | some row =>
      simp only [hlk, Bool.not_true]
      rw [if_neg (by simp)]
      by_cases hstale : row.last_updated + staleLimitMs < now
      · rw [if_pos hstale]
        cases rebuildOk with
        | true =>
          simp only [if_true, lookupCache_rebuildStore]
          rfl
        | false =>
          simp only [Bool.false_eq_true, if_false, hlk]
      · rw [if_neg hstale]

theorem stm_generateFinalPromptM (storeUp rebuildOk : Bool) (sid : String)
    (uid : Option String) (input : String) (now : Nat) (st : Store) :
    ((generateFinalPromptM storeUp rebuildOk sid uid input now st).2).stm = st.stm :=
  stm_getCachedPromptM storeUp rebuildOk sid now st

/-- The boundary input used by the C10 counterexample: 1999 letters
followed by a space and one more letter. -/
def boundaryInput : String :=
  String.mk (List.replicate 1999 'a' ++ [' ', 'b'])

theorem collapseAux_false_append_nonws (x y : List Char)
    (hx : ∀ c ∈ x, wsCharB c = false) :
    collapseAux false (x ++ y) = x ++ collapseAux false y := by
  induction x with
  | nil => rfl
  | cons c cs ih =>
    have hc : wsCharB c = false := hx c (List.mem_cons_self _ _)
    rw [List.cons_append]
    rw [show collapseAux false (c :: (cs ++ y)) = c :: collapseAux false (cs ++ y) by
      simp [collapseAux, hc]]
    rw [ih (fun d hd => hx d (List.mem_cons_of_mem _ hd))]
    rfl

theorem string_toList_mk (l : List Char) : (String.mk l).toList = l := rfl

theorem string_length_eq_toList_length (s : String) : s.length = s.toList.length := rfl

/-- C10 counterexample: `sanitizeText` truncates after trimming, so a
2000-character cut can end on a space — the output is not always free of
surrounding whitespace as the claim states. -/
theorem sanitizeText_boundary_keeps_trailing_space :
    (sanitizeText boundaryInput).toList.getLast? = some ' ' ∧
    (sanitizeText boundaryInput).length = 2000 ∧
    wsCharB ' ' = true := by
  have hrep : ∀ c ∈ List.replicate 1999 'a', wsCharB c = false := by
    intro c hc
    rw [List.eq_of_mem_replicate hc]
    rfl
  have hdrop : (List.replicate 1999 'a' ++ [' ', 'b']).dropWhile wsCharB =
      List.replicate 1999 'a' ++ [' ', 'b'] := by
    rw [show (1999 : Nat) = 1998 + 1 from rfl, List.replicate_succ,
      List.cons_append, List.dropWhile_cons, if_neg (by decide)]
  have hdroprev : ((List.replicate 1999 'a' ++ [' ', 'b']).reverse).dropWhile wsCharB =
      (List.replicate 1999 'a' ++ [' ', 'b']).reverse := by
    rw [List.reverse_append]
    rw [show ([' ', 'b'] : List Char).reverse = ['b', ' '] from rfl,
      List.cons_append, List.dropWhile_cons, if_neg (by decide)]
  have htrim : trimWs (List.replicate 1999 'a' ++ [' ', 'b']) =
      List.replicate 1999 'a' ++ [' ', 'b'] := by
    unfold trimWs
    rw [hdrop, hdroprev, List.reverse_reverse]
  have hcollapse : collapseWs (List.replicate 1999 'a' ++ [' ', 'b']) =
      List.replicate 1999 'a' ++ [' ', 'b'] := by
    unfold collapseWs
    rw [collapseAux_false_append_nonws _ _ hrep]
    rw [show collapseAux false [' ', 'b'] = [' ', 'b'] from rfl]
  have htake : (List.replicate 1999 'a' ++ [' ', 'b']).take 2000 =
      List.replicate 1999 'a' ++ [' '] := by
    rw [List.take_append_eq_append_take,
      List.take_of_length_le (by rw [List.length_replicate]; omega),
      List.length_replicate]
    rw [show (2000 - 1999 : Nat) = 1 from rfl,
      show List.take 1 [' ', 'b'] = [' '] from rfl]
  have hdata : boundaryInput.toList = List.replicate 1999 'a' ++ [' ', 'b'] := rfl
  have hsan0 : sanitizeText boundaryInput =
      String.mk ((collapseWs (trimWs boundaryInput.toList)).take 2000) := rfl
  have hlist : (sanitizeText boundaryInput).toList =
      List.replicate 1999 'a' ++ [' '] := by
    rw [(congrArg String.toList hsan0).trans (string_toList_mk _)]
    rw [hdata, htrim, hcollapse, htake]
  refine ⟨?_, ?_, rfl⟩
  · rw [hlist]
    exact List.getLast?_concat _
  · rw [string_length_eq_toList_length, hlist, List.length_append,
      List.length_replicate]
    rfl

/-- C10 amended: `sanitizeText` yields at most 2000 characters with no
leading whitespace, no two adjacent whitespace characters, and every
remaining whitespace character a plain space — trailing whitespace is
removed before the 2000-character cut, which can itself end on a space —
and `AgentClient.chat` stores `sanitizeText` of the user input as the
turn recorded to STM, so every `user_text` stored through chat obeys
those bounds. -/
theorem sanitizeText_spec_and_chat :
    ∀ (s : String) (storeUp rebuildOk : Bool) (sid uid input resp : String)
      (now : Nat) (st : Store),
      (sanitizeText s).length ≤ 2000 ∧
      (∀ c, (sanitizeText s).toList.head? = some c → wsCharB c = false) ∧
      List.Chain' (fun c d => wsCharB c = false ∨ wsCharB d = false)
        (sanitizeText s).toList ∧
      (∀ c ∈ (sanitizeText s).toList, wsCharB c = true → c = ' ') ∧
      ((chatTurn storeUp rebuildOk sid uid input resp now st).stm.map
        (fun r => r.user_text)).getLast? = some (sanitizeText input) := by
  intro s storeUp rebuildOk sid uid input resp now st
  refine ⟨?_, ?_, ?_, ?_, ?_⟩
  · exact List.length_take_le _ _
  · intro c hc
    have hc' : (collapseWs (trimWs s.toList)).head? = some c :=
      head?_take_eq _ 2000 c hc
    exact collapseWs_head_nonws _ c (fun d hd => head?_trimWs_nonws _ d hd) hc'
  · exact (collapseAux_chain (trimWs s.toList) false).take 2000
  · intro c hc hcw
    have hc' : c ∈ collapseWs (trimWs s.toList) := List.take_subset _ _ hc
    exact collapseAux_ws_is_space _ false c hc' hcw
  · simp only [chatTurn]
    cases hx : extractVITFromConversation (sanitizeText input) resp with
    | none =>
      simp only [hx]
      rw [addToSTM_stm, List.map_append, List.map_cons, List.map_nil,
        List.getLast?_concat]
    | some v =>
      simp only [hx]
      rw [stm_addVIT, addToSTM_stm, List.map_append, List.map_cons, List.map_nil,
        List.getLast?_concat]

theorem sanitizeText_spec_and_chat_witness :
    (sanitizeText "  hi   there ").length ≤ 2000 ∧
    wsCharB 'h' = false ∧
    ((chatTurn true true "s1" "u1" "  hi   there " "resp" 0 emptyStore).stm.map
      (fun r => r.user_text)).getLast? = some (sanitizeText "  hi   there ") :=
  ⟨(sanitizeText_spec_and_chat "  hi   there " true true "s1" "u1"
      "  hi   there " "resp" 0 emptyStore).1,
   (sanitizeText_spec_and_chat "  hi   there " true true "s1" "u1"
      "  hi   there " "resp" 0 emptyStore).2.1 'h' (by decide),
   (sanitizeText_spec_and_chat "  hi   there " true true "s1" "u1"
      "  hi   there " "resp" 0 emptyStore).2.2.2.2⟩

end Zyra
